import Mathlib

/-!
Verification development for the airflow-mesos-executor scheduler.

The Python sources under airflow_mesos_plugin/executors are shallowly
embedded here: pure fragments become Lean functions, the mutable scheduler
state becomes explicit state passing, Python exceptions become
Except String, and scalar resource values (Python floats) become Rat.
External collaborators (the mesos driver, the airflow DAG database and the
configuration store) are modelled at their interface boundary: driver calls
are collected into result lists, and configured default resources are a
parameter.
-/

namespace AirflowMesos

/-! ## mesos_pb2 value model (mesos.interface protocol buffer boundary)

The code dispatches on mesos_pb2.Value type tags SCALAR, RANGE, RANGES,
SET and TEXT (filter.py lines 37-46); the tags are embedded as an
enumeration and an offer resource carries the payloads the filter code
reads from the protobuf message.
-/

inductive ValueType where
  | SCALAR
  | RANGE
  | RANGES
  | SET
  | TEXT
deriving DecidableEq, Repr

structure OfferResource where
  name : String
  vtype : ValueType
  scalarValue : Rat
  rangeBegin : Rat
  rangeEnd : Rat
  ranges : List (Rat × Rat)
deriving DecidableEq, Repr

structure Offer where
  id : Nat
  slave_id : String
  hostname : String
  resources : List OfferResource
deriving DecidableEq, Repr

/-! ## filter.py -/

/-- AirflowMesosFilterMode (filter.py lines 4-6): INCLUDE and EXCLUDE. -/
inductive FilterMode where
  | INCLUDE
  | EXCLUDE
deriving DecidableEq, Repr

/-- AirflowMesosResourceFilter constructor state (filter.py lines 25-29). -/
structure AirflowMesosResourceFilter where
  name : String
  value : Rat
  mode : FilterMode
deriving DecidableEq, Repr

/-- AirflowMesosHostnameFilter constructor state (filter.py lines 109-112). -/
structure AirflowMesosHostnameFilter where
  hostnames : List String
  exclude : Bool
deriving DecidableEq, Repr

/-- AirflowMesosResourceFilter.get_resource (filter.py lines 50-63): find the
offer resources sharing the filter name; more than one is a raised
exception, none is None, otherwise the unique one. -/
def AirflowMesosResourceFilter.get_resource (f : AirflowMesosResourceFilter)
    (offer : Offer) : Except String (Option OfferResource) :=
  let found := offer.resources.filter (fun r => r.name == f.name)
  if found.length > 1 then
    .error ("Found more than one resource for name " ++ f.name)
  else
    .ok found.head?

/-- AirflowMesosResourceFilter.check_scalar (filter.py lines 65-73). The
unknown-mode branch of the source is unreachable here because the mode is
an enumeration. -/
def AirflowMesosResourceFilter.check_scalar (f : AirflowMesosResourceFilter)
    (offer_resource : OfferResource) : Bool :=
  match f.mode with
  | .INCLUDE => decide (f.value ≤ offer_resource.scalarValue)
  | .EXCLUDE => decide (f.value > offer_resource.scalarValue)

/-- AirflowMesosResourceFilter.check_range (filter.py lines 75-84). -/
def AirflowMesosResourceFilter.check_range (f : AirflowMesosResourceFilter)
    (offer_resource : OfferResource) : Bool :=
  let in_range := decide (offer_resource.rangeBegin ≤ f.value) &&
    decide (f.value ≤ offer_resource.rangeEnd)
  match f.mode with
  | .INCLUDE => in_range
  | .EXCLUDE => !in_range

/-- AirflowMesosResourceFilter.check_ranges (filter.py lines 86-100). -/
def AirflowMesosResourceFilter.check_ranges (f : AirflowMesosResourceFilter)
    (offer_resource : OfferResource) : Bool :=
  let in_range := offer_resource.ranges.any
    (fun r => decide (r.1 ≤ f.value) && decide (f.value ≤ r.2))
  match f.mode with
  | .INCLUDE => in_range
  | .EXCLUDE => !in_range

/-- AirflowMesosResourceFilter.check (filter.py lines 31-48): resolve the
named resource (absence is an ordinary non-match), then dispatch on its
type; SET and TEXT dispatch to check_set / check_text which raise
NotImplementedError (filter.py lines 102-106). -/
def AirflowMesosResourceFilter.check (f : AirflowMesosResourceFilter)
    (offer : Offer) : Except String Bool := do
  let offer_resource ← f.get_resource offer
  match offer_resource with
  | none => pure false
  | some r =>
    match r.vtype with
    | .SCALAR => pure (f.check_scalar r)
    | .RANGE => pure (f.check_range r)
    | .RANGES => pure (f.check_ranges r)
    | .SET => .error "NotImplementedError"
    | .TEXT => .error "NotImplementedError"

/-- AirflowMesosHostnameFilter.check (filter.py lines 114-120). -/
def AirflowMesosHostnameFilter.check (f : AirflowMesosHostnameFilter)
    (offer : Offer) : Bool :=
  let has_hostname := f.hostnames.contains offer.hostname ||
    f.hostnames.contains "*"
  if !f.exclude then has_hostname else !has_hostname

/-- A constituent filter of an offer filter: either a resource filter or a
hostname filter (the two AirflowMesosFilter subclasses used by
MesosResource.to_filter). -/
inductive AirflowMesosFilter where
  | resource (f : AirflowMesosResourceFilter)
  | hostname (f : AirflowMesosHostnameFilter)
deriving DecidableEq, Repr

def AirflowMesosFilter.check : AirflowMesosFilter → Offer → Except String Bool
  | .resource f, offer => f.check offer
  | .hostname f, offer => .ok (f.check offer)

/-- AirflowMesosOfferFilter.check (filter.py lines 14-22): logical AND over
the constituent filters, returning False at the first failing one. -/
def AirflowMesosOfferFilter.check : List AirflowMesosFilter → Offer →
    Except String Bool
  | [], _ => .ok true
  | f :: fs, offer => do
    let b ← f.check offer
    if b then AirflowMesosOfferFilter.check fs offer else pure false

/-! ## resource.py -/

/-- MesosResource and its two subclasses (resource.py lines 10-51):
MesosScalarResource carries a name and a scalar value;
MesosHostnameResource always has name "hostname" and carries a hostname
list plus an exclude flag. Python object equality compares the instance
dictionaries, which the derived structural equality mirrors. -/
inductive MesosResource where
  | scalar (name : String) (value : Rat)
  | hostname (value : List String) (exclude : Bool)
deriving DecidableEq, Repr

def MesosResource.name : MesosResource → String
  | .scalar n _ => n
  | .hostname _ _ => "hostname"

/-- MesosResource.to_filter (resource.py lines 35-36 and 47-51). -/
def MesosResource.to_filter : MesosResource → AirflowMesosFilter
  | .scalar n v => .resource ⟨n, v, .INCLUDE⟩
  | .hostname l e => .hostname ⟨l, e⟩

/-- MesosResource.add (resource.py lines 29-33 and 44-45): a scalar
resource appends a named scalar to the task resources, a hostname
resource appends nothing. -/
def MesosResource.add : MesosResource → List (String × Rat) → List (String × Rat)
  | .scalar n v, rs => rs ++ [(n, v)]
  | .hostname _ _, rs => rs

/-- Python list.remove (used at resource.py line 85): remove the first
element equal to x, raising ValueError when no element is equal. -/
def pyListRemove (l : List MesosResource) (x : MesosResource) :
    Except String (List MesosResource) :=
  match l with
  | [] => .error "ValueError: list.remove(x): x not in list"
  | y :: ys =>
    if y = x then .ok ys
    else
      match pyListRemove ys x with
      | .ok ys2 => .ok (y :: ys2)
      | .error e => .error e

/-- The inner loop of merge_resources (resource.py lines 83-85): for each
default resource whose name equals the task resource name, remove it from
the accumulated result list. -/
def merge_removeMatching (task_resource : MesosResource) :
    List MesosResource → List MesosResource → Except String (List MesosResource)
  | [], resources => .ok resources
  | d :: ds, resources =>
    if task_resource.name = d.name then
      match pyListRemove resources d with
      | .ok resources2 => merge_removeMatching task_resource ds resources2
      | .error e => .error e
    else
      merge_removeMatching task_resource ds resources

/-- The outer loop of merge_resources (resource.py lines 82-86): for each
task resource, drop the name-matching defaults then append the task
resource. -/
def merge_resourcesAux (default_resources : List MesosResource) :
    List MesosResource → List MesosResource → Except String (List MesosResource)
  | [], resources => .ok resources
  | t :: ts, resources =>
    match merge_removeMatching t default_resources resources with
    | .ok resources2 => merge_resourcesAux default_resources ts (resources2 ++ [t])
    | .error e => .error e

/-- merge_resources (resource.py lines 80-88). -/
def merge_resources (default_resources task_resources : List MesosResource) :
    Except String (List MesosResource) :=
  merge_resourcesAux default_resources task_resources default_resources

/-! ## scheduler.py state and statusUpdate -/

/-- An airflow task key: (dag_id, task_id, execution date rendered as a
string), the tuple the executor hands to the scheduler queue. -/
abbrev AirflowKey := String × String × String

/-- The airflow terminal states the scheduler reports
(airflow.utils.state.State.SUCCESS / State.FAILED). -/
inductive AirflowState where
  | SUCCESS
  | FAILED
deriving DecidableEq, Repr

/-- The mesos_pb2 task states named by scheduler.py; TASK_DROPPED and
TASK_GONE are present in the protocol but commented out of the failure
list (scheduler.py lines 240-241). -/
inductive TaskState where
  | TASK_STAGING
  | TASK_STARTING
  | TASK_RUNNING
  | TASK_FINISHED
  | TASK_FAILED
  | TASK_KILLED
  | TASK_ERROR
  | TASK_LOST
  | TASK_DROPPED
  | TASK_GONE
deriving DecidableEq, Repr

/-- The part of a mesos TaskStatus message the scheduler reads: the task
id value and the state. -/
structure TaskStatus where
  task_id : String
  state : TaskState
deriving DecidableEq, Repr

/-- One value of the mesos_task_to_airflow_task mapping: the airflow key
and the last received status (scheduler.py lines 227-230, 288-291). -/
structure TrackEntry where
  key : AirflowKey
  status : Option TaskStatus
deriving DecidableEq, Repr

/-- The mesos_task_to_airflow_task dict, embedded as an association list
keyed by the mesos task id value. -/
abbrev Tracking := List (String × TrackEntry)

/-- Python `key in dict`. -/
def dictContains (m : Tracking) (k : String) : Bool :=
  m.any (fun p => p.1 == k)

/-- Python `dict[key]` lookup, None when absent. -/
def dictGet (m : Tracking) (k : String) : Option TrackEntry :=
  (m.find? (fun p => p.1 == k)).map (fun p => p.2)

/-- Python `dict[key] = value`: replace the entry in place when the key is
present, append it otherwise. -/
def dictSet (m : Tracking) (k : String) (v : TrackEntry) : Tracking :=
  if dictContains m k then
    m.map (fun p => if p.1 == k then (k, v) else p)
  else
    m ++ [(k, v)]

/-- Python `dict.pop(key)`: drop the entry of the key. -/
def dictPop (m : Tracking) (k : String) : Tracking :=
  m.filter (fun p => !(p.1 == k))

/-- AirflowMesosScheduler.statusUpdate (scheduler.py lines 203-257) as a
function of the tracking mapping and the result queue contents: an
untracked task id is discarded after a log line; otherwise the entry is
rewritten with the received status as its last status, then TASK_FINISHED
pops the entry and enqueues (key, SUCCESS), the four failure states pop
the entry and enqueue (key, FAILED), and every other state leaves the
rewritten entry with no result. -/
def statusUpdate (tracking : Tracking)
    (results : List (AirflowKey × AirflowState)) (status : TaskStatus) :
    Tracking × List (AirflowKey × AirflowState) :=
  match dictGet tracking status.task_id with
  | none => (tracking, results)
  | some d =>
    if status.state = .TASK_FINISHED then
      (dictPop (dictSet tracking status.task_id ⟨d.key, some status⟩)
        status.task_id, results ++ [(d.key, .SUCCESS)])
    else if status.state = .TASK_FAILED ∨ status.state = .TASK_KILLED ∨
        status.state = .TASK_ERROR ∨ status.state = .TASK_LOST then
      (dictPop (dictSet tracking status.task_id ⟨d.key, some status⟩)
        status.task_id, results ++ [(d.key, .FAILED)])
    else
      (dictSet tracking status.task_id ⟨d.key, some status⟩, results)

/-- AirflowMesosScheduler.reconcile (scheduler.py lines 259-266): when the
tracking mapping is non-empty, call driver.reconcileTasks with the last
known statuses of the entries that have one; when it is empty make no
driver call. The Option is the driver call: none means no
reconcileTasks request was issued. -/
def reconcile (tracking : Tracking) : Option (List TaskStatus) :=
  if tracking.isEmpty then
    none
  else
    some ((tracking.filter (fun p => p.2.status.isSome)).filterMap
      (fun p => p.2.status))

/-! ## scheduler.py offer matching round -/

/-- One element of the scheduler_tasks queue (key, command, task_instance);
the task instance is reduced to the data the round reads from it through
get_operator_task: the operator mesos_resources attribute when present
(scheduler.py lines 299-340). -/
structure PendingTask where
  key : AirflowKey
  command : String
  mesos_resources : Option (List MesosResource)
deriving DecidableEq, Repr

/-- AirflowMesosScheduler.get_operator_mesos_resources (scheduler.py lines
299-307): start from the configured defaults and merge the operator
overrides when the operator declares mesos_resources. The configured
default_resources() list is a parameter here because it is parsed from
the external configuration store. -/
def get_operator_mesos_resources (defaults : List MesosResource)
    (t : PendingTask) : Except String (List MesosResource) :=
  match t.mesos_resources with
  | none => .ok defaults
  | some rs => merge_resources defaults rs

/-- The scan loop of AirflowMesosScheduler.find_offer (scheduler.py lines
346-350): return the first offer the composite filter accepts, None when
no offer is accepted. -/
def find_offerScan (offer_filter : List AirflowMesosFilter) :
    List Offer → Except String (Option Offer)
  | [] => .ok none
  | offer :: rest => do
    let b ← AirflowMesosOfferFilter.check offer_filter offer
    if b then pure (some offer) else find_offerScan offer_filter rest

/-- AirflowMesosScheduler.find_offer (scheduler.py lines 342-350),
assembled from the filter construction and the scan. -/
def find_offer (offers : List Offer) (needed_resources : List MesosResource) :
    Except String (Option Offer) :=
  find_offerScan (needed_resources.map MesosResource.to_filter) offers

/-- The mesos TaskInfo fields the scheduler fills in build_task_info. -/
structure TaskInfo where
  task_id : String
  name : String
  slave_id : String
  resources : List (String × Rat)
  command : String
deriving DecidableEq, Repr

/-- AirflowMesosScheduler.build_task_info (scheduler.py lines 352-375):
render the unique task id from the counter and the key, copy the slave
id from the offer, add the needed resources and the shell command. -/
def build_task_info (tid : Nat) (key : AirflowKey) (command : String)
    (needed_resources : List MesosResource) (offer : Offer) : TaskInfo :=
  { task_id := "airflow:" ++ toString tid ++ ":" ++ key.1 ++ ":" ++ key.2.1
      ++ ":" ++ key.2.2
    name := "AirflowTask " ++ toString tid ++ " " ++ key.1 ++ " " ++ key.2.1
      ++ " " ++ key.2.2
    slave_id := offer.slave_id
    resources := needed_resources.foldl (fun acc r => r.add acc) []
    command := command }

/-- The scheduler state the offer round reads and writes: the
scheduler_tasks queue, the current_task slot, the tracking mapping and
the task counter. -/
structure SchedulerState where
  pending : List PendingTask
  current : Option PendingTask
  tracking : Tracking
  counter : Nat
deriving DecidableEq, Repr

/-- AirflowMesosScheduler.launch_current_task (scheduler.py lines 268-297):
resolve the resource requirements of the current task, scan the offers for
the first acceptable one; on a hit build the task info, record the
launch driver call, insert the tracking entry with no status yet,
increment the counter and return the consumed offer; on a miss return
None with the state unchanged. Exceptions from resolution or filtering
propagate. -/
def launch_current_task (defaults : List MesosResource) (counter : Nat)
    (tracking : Tracking) (t : PendingTask) (offers : List Offer) :
    Except String (Option (Offer × TaskInfo) × Nat × Tracking) := do
  let needed_resources ← get_operator_mesos_resources defaults t
  let offer ← find_offer offers needed_resources
  match offer with
  | some o =>
    let task_info := build_task_info counter t.key t.command needed_resources o
    let tracking2 := dictSet tracking task_info.task_id ⟨t.key, none⟩
    pure (some (o, task_info), counter + 1, tracking2)
  | none => pure (none, counter, tracking)

/-- The outcome of the offer matching while loop: the remaining working
pool, the scheduler state, the launchTasks driver calls that carried a
task (offer id paired with the task info), and the exception text when
the loop was interrupted by one. -/
structure LoopResult where
  available : List Offer
  state : SchedulerState
  launches : List (Nat × TaskInfo)
  error : Option String
deriving DecidableEq, Repr

/-- The while loop of AirflowMesosScheduler.resourceOffers (scheduler.py
lines 165-184), with a fuel argument: the loop runs while a pending work
item exists (current or queued) and the pool is non-empty; the freshly
dequeued item becomes current before the launch attempt; a successful
launch clears the current slot and erases the consumed offer from the
pool; a miss stops the loop with the item left current; an exception
stops the loop recording the text. The fuel resourceOffers supplies
(the pool size) is never exhausted because every iteration that recurses
consumes one offer. -/
def offerLoop (defaults : List MesosResource) :
    Nat → List Offer → SchedulerState → LoopResult
  | 0, avail, st => ⟨avail, st, [], none⟩
  | fuel + 1, avail, st =>
    if avail.isEmpty then ⟨avail, st, [], none⟩
    else
      let dequeued : Option (PendingTask × List PendingTask) :=
        match st.current, st.pending with
        | some t, pend => some (t, pend)
        | none, t :: pend => some (t, pend)
        | none, [] => none
      match dequeued with
      | none => ⟨avail, st, [], none⟩
      | some (t, pend) =>
        match launch_current_task defaults st.counter st.tracking t avail with
        | .error e => ⟨avail, ⟨pend, some t, st.tracking, st.counter⟩, [], some e⟩
        | .ok (none, c2, tr2) => ⟨avail, ⟨pend, some t, tr2, c2⟩, [], none⟩
        | .ok (some (offer, task_info), c2, tr2) =>
          let r := offerLoop defaults fuel (avail.erase offer) ⟨pend, none, tr2, c2⟩
          ⟨r.available, r.state, (offer.id, task_info) :: r.launches, r.error⟩

/-- The observable outcome of one resourceOffers round: the scheduler
state after the round, the launchTasks calls carrying a task, the ids
released by the final empty launchTasks call, and the logged exception
text when the round was interrupted. -/
structure RoundOutcome where
  state : SchedulerState
  launched : List (Nat × TaskInfo)
  released : List Nat
  errorLogged : Option String
deriving DecidableEq, Repr

/-- AirflowMesosScheduler.resourceOffers (scheduler.py lines 135-192): copy
the offers into a working pool and run the matching loop; on normal exit
release the pool remainder with an empty launchTasks call; when an
exception interrupted the loop, log it and release every offer of the
original batch. -/
def resourceOffers (defaults : List MesosResource) (offers : List Offer)
    (st : SchedulerState) : RoundOutcome :=
  match offerLoop defaults offers.length offers st with
  | ⟨available, state, launches, none⟩ =>
    ⟨state, launches, available.map Offer.id, none⟩
  | ⟨_, state, launches, some e⟩ =>
    ⟨state, launches, offers.map Offer.id, some e⟩

/-! ## mesos_executor.py suppression control -/

/-- The two offer-flow driver calls of MesosExecutor.mesos_suppress_revive. -/
inductive DriverCall where
  | suppressOffers
  | reviveOffers
deriving DecidableEq, Repr

/-- MesosExecutor.mesos_suppress_revive (mesos_executor.py lines 127-136)
as a function of the scheduler_tasks.empty() observation and the
suppressed flag, returning the new flag and the driver calls issued, in
order: the second if statement reads the flag as left by the first. -/
def mesos_suppress_revive (tasksEmpty suppressed : Bool) :
    Bool × List DriverCall :=
  let s1 := if tasksEmpty && !suppressed then true else suppressed
  let c1 : List DriverCall :=
    if tasksEmpty && !suppressed then [.suppressOffers] else []
  let s2 := if !tasksEmpty && s1 then false else s1
  let c2 : List DriverCall := if !tasksEmpty && s1 then [.reviveOffers] else []
  (s2, c1 ++ c2)

/-! ## Association list dictionary lemmas -/

theorem dictGet_eq_none_of_not_contains (m : Tracking) (k : String)
    (h : dictContains m k = false) : dictGet m k = none := by
  have hall := List.any_eq_false.mp h
  unfold dictGet
  rw [List.find?_eq_none.mpr hall]
  rfl

theorem dictGet_dictPop (m : Tracking) (k : String) :
    dictGet (dictPop m k) k = none := by
  unfold dictGet dictPop
  rw [List.find?_eq_none.mpr]
  · rfl
  · intro p hp
    have := (List.mem_filter.mp hp).2
    simpa using this

/-- A shared fact: an untracked status update leaves both the mapping and
the result queue unchanged. -/
theorem statusUpdate_untracked (m : Tracking)
    (results : List (AirflowKey × AirflowState)) (status : TaskStatus)
    (h : dictGet m status.task_id = none) :
    statusUpdate m results status = (m, results) := by
  unfold statusUpdate
  rw [h]

theorem filter_map_dictSet (m : Tracking) (k : String) (v : TrackEntry) :
    List.filter (fun p => !(p.1 == k))
      (m.map (fun p => if p.1 == k then (k, v) else p)) =
    List.filter (fun p => !(p.1 == k)) m := by
  induction m with
  | nil => rfl
  | cons p t ih =>
    by_cases hp : (p.1 == k) = true
    · have hp2 : p.1 = k := by simpa using hp
      simp [hp2]
      simpa using ih
    · rw [Bool.not_eq_true] at hp
      have hp2 : ¬(p.1 = k) := by simpa using hp
      simp [hp2]
      simpa using ih

theorem dictPop_dictSet (m : Tracking) (k : String) (v : TrackEntry) :
    dictPop (dictSet m k v) k = dictPop m k := by
  unfold dictSet dictPop
  by_cases h : dictContains m k = true
  · rw [if_pos h]
    exact filter_map_dictSet m k v
  · rw [if_neg h, List.filter_append]
    simp

theorem find?_map_dictSet (m : Tracking) (k : String) (v : TrackEntry)
    (h : dictContains m k = true) :
    List.find? (fun p => p.1 == k)
      (m.map (fun p => if p.1 == k then (k, v) else p)) = some (k, v) := by
  induction m with
  | nil => simp [dictContains] at h
  | cons p t ih =>
    by_cases hp : (p.1 == k) = true
    · simp [hp, List.find?]
    · rw [Bool.not_eq_true] at hp
      have ht : dictContains t k = true := by
        simpa [dictContains, hp] using h
      simp only [List.map_cons, hp, Bool.false_eq_true, if_false]
      rw [List.find?_cons_of_neg _ (by simp [hp]), ih ht]

theorem dictGet_dictSet (m : Tracking) (k : String) (v : TrackEntry)
    (h : dictContains m k = true) : dictGet (dictSet m k v) k = some v := by
  unfold dictGet dictSet
  rw [if_pos h, find?_map_dictSet m k v h]
  rfl

theorem dictContains_of_dictGet (m : Tracking) (k : String) (v : TrackEntry)
    (h : dictGet m k = some v) : dictContains m k = true := by
  by_contra hc
  rw [dictGet_eq_none_of_not_contains m k (by simpa using hc)] at h
  exact Option.noConfusion h

/-! ## Claim theorems: status tracking -/

/-- C4: a status update whose task id is not in the tracking mapping is
discarded: no result is enqueued and the mapping is unchanged. -/
theorem statusUpdate_untracked_discarded (tracking : Tracking)
    (results : List (AirflowKey × AirflowState)) (status : TaskStatus)
    (h : dictContains tracking status.task_id = false) :
    statusUpdate tracking results status = (tracking, results) :=
  statusUpdate_untracked tracking results status
    (dictGet_eq_none_of_not_contains tracking status.task_id h)

/-- C4 witness: a concrete update for an unknown id leaves the tracking
mapping and the result queue unchanged. -/
theorem statusUpdate_untracked_discarded_witness :
    statusUpdate [("a", ⟨("d", "t", "e"), none⟩)] [] ⟨"b", .TASK_FINISHED⟩ =
      ([("a", ⟨("d", "t", "e"), none⟩)], []) :=
  statusUpdate_untracked_discarded [("a", ⟨("d", "t", "e"), none⟩)] []
    ⟨"b", .TASK_FINISHED⟩ (by decide)

/-- C3: for a tracked task id, TASK_FINISHED emits exactly one SUCCESS
result and removes the entry; each of TASK_FAILED, TASK_KILLED,
TASK_ERROR and TASK_LOST emits exactly one FAILED result and removes the
entry; any state outside those five stores the status as the entry's last
status and emits nothing; and a duplicate terminal status re-delivered
after the removal changes nothing. -/
theorem statusUpdate_terminal_classification (tracking : Tracking)
    (results : List (AirflowKey × AirflowState)) (status : TaskStatus)
    (key : AirflowKey) (old : Option TaskStatus)
    (h : dictGet tracking status.task_id = some ⟨key, old⟩) :
    (status.state = .TASK_FINISHED →
      statusUpdate tracking results status =
        (dictPop tracking status.task_id, results ++ [(key, .SUCCESS)]) ∧
      dictGet (dictPop tracking status.task_id) status.task_id = none) ∧
    ((status.state = .TASK_FAILED ∨ status.state = .TASK_KILLED ∨
        status.state = .TASK_ERROR ∨ status.state = .TASK_LOST) →
      statusUpdate tracking results status =
        (dictPop tracking status.task_id, results ++ [(key, .FAILED)]) ∧
      dictGet (dictPop tracking status.task_id) status.task_id = none) ∧
    ((status.state ≠ .TASK_FINISHED ∧ status.state ≠ .TASK_FAILED ∧
        status.state ≠ .TASK_KILLED ∧ status.state ≠ .TASK_ERROR ∧
        status.state ≠ .TASK_LOST) →
      statusUpdate tracking results status =
        (dictSet tracking status.task_id ⟨key, some status⟩, results) ∧
      dictGet (dictSet tracking status.task_id ⟨key, some status⟩)
        status.task_id = some ⟨key, some status⟩) ∧
    (∀ results2, statusUpdate (dictPop tracking status.task_id) results2 status =
      (dictPop tracking status.task_id, results2)) := by
  have hc : dictContains tracking status.task_id = true :=
    dictContains_of_dictGet tracking status.task_id ⟨key, old⟩ h
  refine ⟨?_, ?_, ?_, ?_⟩
  · intro hs
    constructor
    · unfold statusUpdate
      rw [h]
      dsimp only
      rw [if_pos hs, dictPop_dictSet]
    · exact dictGet_dictPop tracking status.task_id
  · intro hs
    constructor
    · unfold statusUpdate
      rw [h]
      dsimp only
      have hnf : ¬ status.state = TaskState.TASK_FINISHED := by
        rcases hs with h1 | h1 | h1 | h1 <;> rw [h1] <;> intro hx <;>
          exact TaskState.noConfusion hx
      rw [if_neg hnf, if_pos hs, dictPop_dictSet]
    · exact dictGet_dictPop tracking status.task_id
  · intro hs
    obtain ⟨h1, h2, h3, h4, h5⟩ := hs
    constructor
    · unfold statusUpdate
      rw [h]
      dsimp only
      rw [if_neg h1, if_neg]
      intro hx
      rcases hx with hx | hx | hx | hx
      · exact h2 hx
      · exact h3 hx
      · exact h4 hx
      · exact h5 hx
    · exact dictGet_dictSet tracking status.task_id ⟨key, some status⟩ hc
  · intro results2
    exact statusUpdate_untracked _ results2 status
      (dictGet_dictPop tracking status.task_id)

/-- C3 witness: a concrete TASK_FINISHED update for a tracked id emits one
SUCCESS result, removes the entry, and a duplicate delivery afterwards
changes nothing. -/
theorem statusUpdate_terminal_classification_witness :
    statusUpdate [("a", ⟨("d", "t", "e"), none⟩)] [] ⟨"a", .TASK_FINISHED⟩ =
      (dictPop [("a", ⟨("d", "t", "e"), none⟩)] "a",
        [] ++ [(("d", "t", "e"), .SUCCESS)]) ∧
    statusUpdate (dictPop [("a", ⟨("d", "t", "e"), none⟩)] "a")
      [(("d", "t", "e"), .SUCCESS)] ⟨"a", .TASK_FINISHED⟩ =
      (dictPop [("a", ⟨("d", "t", "e"), none⟩)] "a",
        [(("d", "t", "e"), .SUCCESS)]) := by
  have h := statusUpdate_terminal_classification
    [("a", ⟨("d", "t", "e"), none⟩)] [] ⟨"a", .TASK_FINISHED⟩
    ("d", "t", "e") none (by decide)
  exact ⟨(h.1 rfl).1, h.2.2.2 [(("d", "t", "e"), .SUCCESS)]⟩

/-- C8: reconcile issues a driver request exactly when the tracking
mapping is non-empty, and the snapshot it sends carries the last known
status of every tracked task that has one. -/
theorem reconcile_sends_iff_tracked (tracking : Tracking) :
    (reconcile tracking = none ↔ tracking = []) ∧
    (∀ snapshot, reconcile tracking = some snapshot →
      ∀ p ∈ tracking, ∀ s, p.2.status = some s → s ∈ snapshot) := by
  constructor
  · unfold reconcile
    by_cases h : tracking.isEmpty
    · simp [h, List.isEmpty_iff.mp h]
    · simp only [h, if_false]
      simp only [Bool.not_eq_true] at h
      constructor
      · intro hx
        exact Option.noConfusion hx
      · intro hx
        rw [hx] at h
        simp at h
  · intro snapshot hsnap p hp s hs
    unfold reconcile at hsnap
    by_cases h : tracking.isEmpty
    · rw [if_pos h] at hsnap
      exact Option.noConfusion hsnap
    · rw [if_neg h] at hsnap
      have hsome := Option.some.inj hsnap
      rw [← hsome]
      apply List.mem_filterMap.mpr
      refine ⟨p, ?_, hs⟩
      apply List.mem_filter.mpr
      exact ⟨hp, by simp [hs]⟩

/-- C8 witness: an empty table produces no request, and a concrete
tracked status appears in the concrete snapshot. -/
theorem reconcile_sends_iff_tracked_witness :
    reconcile ([] : Tracking) = none ∧
    (⟨"a", .TASK_RUNNING⟩ : TaskStatus) ∈
      [(⟨"a", .TASK_RUNNING⟩ : TaskStatus)] := by
  constructor
  · exact (reconcile_sends_iff_tracked []).1.mpr rfl
  · exact (reconcile_sends_iff_tracked
      [("a", ⟨("d", "t", "e"), some ⟨"a", .TASK_RUNNING⟩⟩)]).2
      [⟨"a", .TASK_RUNNING⟩] (by decide)
      ("a", ⟨("d", "t", "e"), some ⟨"a", .TASK_RUNNING⟩⟩) (by decide)
      ⟨"a", .TASK_RUNNING⟩ rfl

/-- C9: the suppress/revive control is idempotent: re-evaluating in the
state it just produced issues no driver call, while the empty-queue
non-suppressed transition issues exactly one suppress request and the
non-empty suppressed transition exactly one revive request. -/
theorem suppress_revive_idempotent :
    (∀ tasksEmpty suppressed : Bool,
      mesos_suppress_revive tasksEmpty
          (mesos_suppress_revive tasksEmpty suppressed).1 =
        ((mesos_suppress_revive tasksEmpty suppressed).1, [])) ∧
    mesos_suppress_revive true false = (true, [DriverCall.suppressOffers]) ∧
    mesos_suppress_revive false true = (false, [DriverCall.reviveOffers]) := by
  decide

/-! ## Claim theorems: resource filter semantics -/

theorem get_resource_of_unique (f : AirflowMesosResourceFilter) (offer : Offer)
    (r : OfferResource)
    (hfound : offer.resources.filter (fun q => q.name == f.name) = [r]) :
    f.get_resource offer = .ok (some r) := by
  unfold AirflowMesosResourceFilter.get_resource
  rw [hfound]
  rfl

/-- C6: against an offer exposing exactly one resource of the requirement
name, of scalar kind, an INCLUDE filter matches iff the offered value is
at least the required value, and an EXCLUDE filter matches iff the
offered value is strictly below the required value. -/
theorem check_scalar_boundary (f : AirflowMesosResourceFilter) (offer : Offer)
    (r : OfferResource)
    (hfound : offer.resources.filter (fun q => q.name == f.name) = [r])
    (htype : r.vtype = .SCALAR) :
    (f.mode = .INCLUDE →
      (f.check offer = .ok true ↔ f.value ≤ r.scalarValue)) ∧
    (f.mode = .EXCLUDE →
      (f.check offer = .ok true ↔ r.scalarValue < f.value)) := by
  have hres := get_resource_of_unique f offer r hfound
  have hchk : f.check offer = .ok (f.check_scalar r) := by
    unfold AirflowMesosResourceFilter.check
    rw [hres]
    simp only [bind, Except.bind, htype]
    rfl
  constructor
  · intro hm
    rw [hchk]
    unfold AirflowMesosResourceFilter.check_scalar
    rw [hm]
    simp
  · intro hm
    rw [hchk]
    unfold AirflowMesosResourceFilter.check_scalar
    rw [hm]
    simp

/-- C6 witness: at the INCLUDE boundary an offer of exactly the required
scalar matches; at the EXCLUDE boundary it does not. -/
theorem check_scalar_boundary_witness :
    AirflowMesosResourceFilter.check ⟨"cpus", 1, .INCLUDE⟩
      ⟨7, "s", "h", [⟨"cpus", .SCALAR, 1, 0, 0, []⟩]⟩ = .ok true ∧
    ¬ AirflowMesosResourceFilter.check ⟨"cpus", 1, .EXCLUDE⟩
      ⟨7, "s", "h", [⟨"cpus", .SCALAR, 1, 0, 0, []⟩]⟩ = .ok true := by
  constructor
  · exact ((check_scalar_boundary ⟨"cpus", 1, .INCLUDE⟩
      ⟨7, "s", "h", [⟨"cpus", .SCALAR, 1, 0, 0, []⟩]⟩
      ⟨"cpus", .SCALAR, 1, 0, 0, []⟩ rfl rfl).1 rfl).mpr le_rfl
  · intro hx
    have := ((check_scalar_boundary ⟨"cpus", 1, .EXCLUDE⟩
      ⟨7, "s", "h", [⟨"cpus", .SCALAR, 1, 0, 0, []⟩]⟩
      ⟨"cpus", .SCALAR, 1, 0, 0, []⟩ rfl rfl).2 rfl).mp hx
    exact absurd this (lt_irrefl 1)

/-- C7: evaluating a resource requirement raises exactly when the offer
holds more than one resource of the requirement name or the unique one is
of SET or TEXT kind; a missing resource is an ordinary non-match
returning false without raising. -/
theorem check_error_characterization (f : AirflowMesosResourceFilter)
    (offer : Offer) :
    ((∃ e, f.check offer = .error e) ↔
      1 < (offer.resources.filter (fun q => q.name == f.name)).length ∨
      (∃ r, offer.resources.filter (fun q => q.name == f.name) = [r] ∧
        (r.vtype = .SET ∨ r.vtype = .TEXT))) ∧
    (offer.resources.filter (fun q => q.name == f.name) = [] →
      f.check offer = .ok false) := by
  rcases hfl : offer.resources.filter (fun q => q.name == f.name) with _ | ⟨r, rest⟩
  · have hres : f.get_resource offer = .ok none := by
      unfold AirflowMesosResourceFilter.get_resource
      rw [hfl]
      rfl
    have hchk : f.check offer = .ok false := by
      unfold AirflowMesosResourceFilter.check
      rw [hres]
      rfl
    refine ⟨?_, fun _ => hchk⟩
    rw [hchk, hfl]
    simp
  · rcases rest with _ | ⟨r2, rest2⟩
    · have hres := get_resource_of_unique f offer r hfl
      have hchk : f.check offer = (match r.vtype with
          | .SCALAR => .ok (f.check_scalar r)
          | .RANGE => .ok (f.check_range r)
          | .RANGES => .ok (f.check_ranges r)
          | .SET => .error "NotImplementedError"
          | .TEXT => .error "NotImplementedError") := by
        unfold AirflowMesosResourceFilter.check
        rw [hres]
        rfl
      constructor
      · rw [hchk, hfl]
        cases hv : r.vtype <;> simp [hv]
      · intro hx
        rw [hfl] at hx
        exact List.noConfusion hx
    · have hres : f.get_resource offer =
          .error ("Found more than one resource for name " ++ f.name) := by
        unfold AirflowMesosResourceFilter.get_resource
        rw [hfl]
        dsimp only
        rw [if_pos (by simp only [List.length_cons]; omega)]
      have hchk : f.check offer =
          .error ("Found more than one resource for name " ++ f.name) := by
        unfold AirflowMesosResourceFilter.check
        rw [hres]
        rfl
      constructor
      · rw [hchk, hfl]
        constructor
        · intro _
          left
          simp only [List.length_cons]
          omega
        · intro _
          exact ⟨_, rfl⟩
      · intro hx
        rw [hfl] at hx
        exact List.noConfusion hx

/-- C7 witness: a requirement whose name is absent from a concrete offer
is an ordinary non-match, and a concrete offer carrying the name twice
makes the same requirement raise. -/
theorem check_error_characterization_witness :
    AirflowMesosResourceFilter.check ⟨"gpus", 1, .INCLUDE⟩
      ⟨7, "s", "h", [⟨"cpus", .SCALAR, 1, 0, 0, []⟩]⟩ = .ok false ∧
    (∃ e, AirflowMesosResourceFilter.check ⟨"cpus", 1, .INCLUDE⟩
      ⟨8, "s", "h", [⟨"cpus", .SCALAR, 1, 0, 0, []⟩,
        ⟨"cpus", .SCALAR, 2, 0, 0, []⟩]⟩ = .error e) := by
  constructor
  · exact (check_error_characterization ⟨"gpus", 1, .INCLUDE⟩
      ⟨7, "s", "h", [⟨"cpus", .SCALAR, 1, 0, 0, []⟩]⟩).2 (by decide)
  · exact (check_error_characterization ⟨"cpus", 1, .INCLUDE⟩
      ⟨8, "s", "h", [⟨"cpus", .SCALAR, 1, 0, 0, []⟩,
        ⟨"cpus", .SCALAR, 2, 0, 0, []⟩]⟩).1.mpr (by rw [show (Offer.mk 8 "s" "h"
          [⟨"cpus", .SCALAR, 1, 0, 0, []⟩, ⟨"cpus", .SCALAR, 2, 0, 0, []⟩]).resources.filter
          (fun q => q.name == "cpus") = [⟨"cpus", .SCALAR, 1, 0, 0, []⟩,
          ⟨"cpus", .SCALAR, 2, 0, 0, []⟩] from rfl]; left; decide)

/-! ## merge_resources lemmas -/

theorem pyListRemove_of_mem (l : List MesosResource) (x : MesosResource)
    (h : x ∈ l) : pyListRemove l x = .ok (l.erase x) := by
  induction l with
  | nil => exact absurd h (List.not_mem_nil x)
  | cons y ys ih =>
    unfold pyListRemove
    by_cases hyx : y = x
    · subst hyx
      rw [if_pos rfl, List.erase_cons_head]
    · have hmem : x ∈ ys := by
        rcases List.mem_cons.mp h with h1 | h1
        · exact absurd h1.symm hyx
        · exact h1
      rw [if_neg hyx, ih hmem]
      dsimp only
      rw [List.erase_cons]
      simp [hyx]

theorem pyListRemove_of_not_mem (l : List MesosResource) (x : MesosResource)
    (h : x ∉ l) :
    pyListRemove l x = .error "ValueError: list.remove(x): x not in list" := by
  induction l with
  | nil => rfl
  | cons y ys ih =>
    unfold pyListRemove
    rw [if_neg (fun hyx => h (by rw [← hyx]; exact List.mem_cons_self y ys)),
      ih (fun hm => h (List.mem_cons_of_mem y hm))]

theorem merge_removeMatching_skip (t : MesosResource)
    (ds : List MesosResource) (rs : List MesosResource)
    (h : ∀ d ∈ ds, ¬(t.name = d.name)) :
    merge_removeMatching t ds rs = .ok rs := by
  induction ds generalizing rs with
  | nil => rfl
  | cons d ds2 ih =>
    unfold merge_removeMatching
    rw [if_neg (h d (List.mem_cons_self d ds2))]
    exact ih rs (fun x hx => h x (List.mem_cons_of_mem d hx))

theorem filter_erase_of_neg (p : MesosResource → Bool)
    (l : List MesosResource) (d : MesosResource) (hp : p d = false) :
    (l.erase d).filter p = l.filter p := by
  induction l with
  | nil => rfl
  | cons a l2 ih =>
    rw [List.erase_cons]
    by_cases had : a = d
    · subst had
      simp [List.filter_cons, hp]
    · rw [if_neg (by simp [had])]
      rw [List.filter_cons, List.filter_cons]
      by_cases hpa : p a = true
      · simp [hpa, ih]
      · simp [hpa, ih]

theorem merge_removeMatching_removes_all (t : MesosResource)
    (ds : List MesosResource) :
    ∀ rs : List MesosResource,
    (∀ y : MesosResource, y.name = t.name →
      rs.count y = (ds.filter (fun d => t.name == d.name)).count y) →
    merge_removeMatching t ds rs =
      .ok (rs.filter (fun r => !(t.name == r.name))) := by
  induction ds with
  | nil =>
    intro rs hcount
    have hall : ∀ a ∈ rs, (!(t.name == a.name)) = true := by
      intro a ha
      rcases hb : t.name == a.name with _ | _
      · simp [hb]
      · exfalso
        have hba : a.name = t.name := (eq_of_beq hb).symm
        have hz : rs.count a = 0 := by
          rw [hcount a hba]
          rfl
        exact absurd ha (List.count_eq_zero.mp hz)
    rw [List.filter_eq_self.mpr hall]
    rfl
  | cons d ds2 ih =>
    intro rs hcount
    unfold merge_removeMatching
    by_cases hname : t.name = d.name
    · rw [if_pos hname]
      have hcd := hcount d hname.symm
      have hfcons : (d :: ds2).filter (fun x => t.name == x.name) =
          d :: ds2.filter (fun x => t.name == x.name) := by
        rw [List.filter_cons, if_pos (by simp [hname])]
      have hdmem : d ∈ rs := by
        rw [← List.count_pos_iff]
        rw [hcd, hfcons, List.count_cons]
        simp
      rw [pyListRemove_of_mem rs d hdmem]
      dsimp only
      rw [ih (rs.erase d) ?_]
      · rw [filter_erase_of_neg _ rs d (by simp [hname])]
      · intro y hy
        rw [List.count_erase]
        rw [hcount y hy, hfcons, List.count_cons]
        have hpos : (d == y) = true → 0 < List.count y (d :: ds2).tail + 1 := by
          intro _
          omega
        rcases hdy : d == y with _ | _
        · simp
        · simp
    · rw [if_neg hname]
      apply ih rs
      intro y hy
      rw [hcount y hy]
      congr 1
      rw [List.filter_cons, if_neg (by simp [hname])]

theorem merge_resourcesAux_canonical (ds : List MesosResource)
    (os0 : List MesosResource)
    (H : ∀ d ∈ ds, ((os0.filter (fun o => o.name == d.name)).length ≤ 1)) :
    ∀ os done : List MesosResource, os0 = done ++ os →
    merge_resourcesAux ds os
      (ds.filter (fun d => !(done.any (fun o => o.name == d.name))) ++ done) =
    .ok (ds.filter (fun d => !(os0.any (fun o => o.name == d.name))) ++ os0) := by
  intro os
  induction os with
  | nil =>
    intro done heq
    rw [List.append_nil] at heq
    subst heq
    rfl
  | cons o os2 ih =>
    intro done heq
    unfold merge_resourcesAux
    by_cases hmatch : ∃ d ∈ ds, o.name = d.name
    · obtain ⟨d0, hd0mem, hd0name⟩ := hmatch
      have Hd0 := H d0 hd0mem
      have hsplit : os0.filter (fun x => x.name == d0.name) =
          done.filter (fun x => x.name == d0.name) ++
            (o :: os2.filter (fun x => x.name == d0.name)) := by
        rw [heq, List.filter_append, List.filter_cons,
          if_pos (by simp [hd0name])]
      rw [hsplit] at Hd0
      simp only [List.length_append, List.length_cons] at Hd0
      have hdonefilter : done.filter (fun x => x.name == d0.name) = [] :=
        List.length_eq_zero.mp (by omega)
      have hdoneclean : ∀ x ∈ done, ¬(x.name = d0.name) := by
        intro x hx hxname
        have := List.filter_eq_nil_iff.mp hdonefilter x hx
        exact this (by simp [hxname])
      rw [merge_removeMatching_removes_all o ds _ ?_]
      · dsimp only
        have hstep : (List.filter
              (fun d => !(done.any (fun o => o.name == d.name))) ds ++ done).filter
              (fun r => !(o.name == r.name)) ++ [o] =
            ds.filter
              (fun d => !((done ++ [o]).any (fun x => x.name == d.name))) ++
              (done ++ [o]) := by
          rw [List.filter_append]
          have hdone2 : done.filter (fun r => !(o.name == r.name)) = done := by
            apply List.filter_eq_self.mpr
            intro x hx
            rcases hb : o.name == x.name with _ | _
            · rfl
            · exact absurd ((eq_of_beq hb).symm.trans hd0name)
                (hdoneclean x hx)
          rw [hdone2, List.filter_filter]
          rw [← List.append_assoc]
          congr 1
          congr 1
          apply List.filter_congr
          intro d hd
          simp only [List.any_append, List.any_cons, List.any_nil,
            Bool.or_false, Bool.not_or]
          rw [Bool.and_comm]
        rw [hstep]
        exact ih (done ++ [o]) (by rw [heq, List.append_assoc]; rfl)
      · intro y hy
        have hyd0 : y.name = d0.name := hy.trans hd0name
        rw [List.count_append]
        have hcountdone : done.count y = 0 := by
          apply List.count_eq_zero.mpr
          intro hmem
          exact hdoneclean y hmem hyd0
        have hfilter1 : (ds.filter
            (fun d => !(done.any (fun o => o.name == d.name)))).count y =
            ds.count y := by
          apply List.count_filter
          have hnone : done.any (fun x => x.name == y.name) = false := by
            apply List.any_eq_false.mpr
            intro x hx hb
            exact hdoneclean x hx ((eq_of_beq hb).trans hyd0)
          simp [hnone]
        have hfilter2 : (ds.filter (fun d => o.name == d.name)).count y =
            ds.count y := by
          apply List.count_filter
          simp [hy.symm]
        rw [hcountdone, hfilter1, hfilter2]
        omega
    · rw [merge_removeMatching_skip o ds _
        (fun d hd hn => hmatch ⟨d, hd, hn⟩)]
      dsimp only
      have hstep : (ds.filter
            (fun d => !(done.any (fun x => x.name == d.name))) ++ done) ++ [o] =
          ds.filter
            (fun d => !((done ++ [o]).any (fun x => x.name == d.name))) ++
            (done ++ [o]) := by
        rw [List.append_assoc]
        congr 1
        apply List.filter_congr
        intro d hd
        simp only [List.any_append, List.any_cons, List.any_nil, Bool.or_false]
        have hb : (o.name == d.name) = false := by
          rcases hb : o.name == d.name with _ | _
          · rfl
          · exact absurd ⟨d, hd, eq_of_beq hb⟩ hmatch
        rw [hb, Bool.or_false]
      rw [hstep]
      exact ih (done ++ [o]) (by rw [heq, List.append_assoc]; rfl)

/-- C5 counterexample: merging defaults [cpu 1/10] with two overrides both
named cpu does not return the override-replaced list the claim promises
for every pair of lists; the merge raises a ValueError instead. -/
theorem merge_duplicate_counterexample :
    merge_resources [MesosResource.scalar "cpu" (mkRat 1 10)]
      [MesosResource.scalar "cpu" 4, MesosResource.scalar "cpu" 2] ≠
    .ok [MesosResource.scalar "cpu" 4, MesosResource.scalar "cpu" 2] := by
  have h : merge_resources [MesosResource.scalar "cpu" (mkRat 1 10)]
      [MesosResource.scalar "cpu" 4, MesosResource.scalar "cpu" 2] =
      .error "ValueError: list.remove(x): x not in list" := rfl
  rw [h]
  intro hx
  exact Except.noConfusion hx

/-- C5 (amended): provided at most one override bears any given default's
name, merge_resources drops each default whose name matches some override
(replacing, never summing), passes the other defaults through unchanged,
and returns the surviving defaults first in their original order followed
by the overrides in their original order. -/
theorem merge_overrides_replace (ds os : List MesosResource)
    (H : ∀ d ∈ ds, (os.filter (fun o => o.name == d.name)).length ≤ 1) :
    merge_resources ds os =
      .ok (ds.filter (fun d => !(os.any (fun o => o.name == d.name))) ++ os) := by
  have h := merge_resourcesAux_canonical ds os H os [] rfl
  unfold merge_resources
  have hin : ds.filter
      (fun d => !(([] : List MesosResource).any (fun o => o.name == d.name))) ++
      ([] : List MesosResource) = ds := by
    simp
  rw [hin] at h
  exact h

/-- C5 witness: merging defaults [cpu 1/10] with overrides [cpu 4] yields
[cpu 4] — the override replaces the default. -/
theorem merge_overrides_replace_witness :
    merge_resources [MesosResource.scalar "cpu" (mkRat 1 10)]
      [MesosResource.scalar "cpu" 4] = .ok [MesosResource.scalar "cpu" 4] := by
  have h := merge_overrides_replace [MesosResource.scalar "cpu" (mkRat 1 10)]
    [MesosResource.scalar "cpu" 4]
    (fun d _ => List.length_filter_le _ _)
  rw [h]
  rfl

theorem filter_one_split (p : MesosResource → Bool) :
    ∀ l : List MesosResource, 1 ≤ (l.filter p).length →
    ∃ pre x rest, l = pre ++ x :: rest ∧ p x = true ∧
      ∀ z ∈ pre, p z = false := by
  intro l
  induction l with
  | nil =>
    intro h
    simp at h
  | cons a l2 ih =>
    intro h
    by_cases hpa : p a = true
    · exact ⟨[], a, l2, rfl, hpa, by intro z hz; simp at hz⟩
    · rw [Bool.not_eq_true] at hpa
      have h2 : 1 ≤ (l2.filter p).length := by
        rw [List.filter_cons, hpa] at h
        simpa using h
      obtain ⟨pre, x, rest, heq, hpx, hpre⟩ := ih h2
      refine ⟨a :: pre, x, rest, by rw [heq]; rfl, hpx, ?_⟩
      intro z hz
      rcases List.mem_cons.mp hz with h1 | h1
      · rw [h1]; exact hpa
      · exact hpre z h1

theorem filter_two_split (p : MesosResource → Bool) :
    ∀ l : List MesosResource, 2 ≤ (l.filter p).length →
    ∃ pre x mid y rest, l = pre ++ x :: (mid ++ y :: rest) ∧ p x = true ∧
      p y = true ∧ (∀ z ∈ pre, p z = false) ∧ (∀ z ∈ mid, p z = false) := by
  intro l
  induction l with
  | nil =>
    intro h
    simp at h
  | cons a l2 ih =>
    intro h
    by_cases hpa : p a = true
    · have h2 : 1 ≤ (l2.filter p).length := by
        rw [List.filter_cons, if_pos hpa] at h
        simp only [List.length_cons] at h
        omega
      obtain ⟨mid, y, rest, heq, hpy, hmid⟩ := filter_one_split p l2 h2
      exact ⟨[], a, mid, y, rest, by rw [heq]; rfl, hpa, hpy,
        by intro z hz; simp at hz, hmid⟩
    · rw [Bool.not_eq_true] at hpa
      have h2 : 2 ≤ (l2.filter p).length := by
        rw [List.filter_cons, hpa] at h
        simpa using h
      obtain ⟨pre, x, mid, y, rest, heq, hpx, hpy, hpre, hmid⟩ := ih h2
      refine ⟨a :: pre, x, mid, y, rest, by rw [heq]; rfl, hpx, hpy, ?_, hmid⟩
      intro z hz
      rcases List.mem_cons.mp hz with h1 | h1
      · rw [h1]; exact hpa
      · exact hpre z h1

theorem merge_resourcesAux_cons (ds : List MesosResource) (x : MesosResource)
    (xs rs : List MesosResource) :
    merge_resourcesAux ds (x :: xs) rs =
      match merge_removeMatching x ds rs with
      | .ok rs2 => merge_resourcesAux ds xs (rs2 ++ [x])
      | .error e => .error e := rfl

theorem merge_removeMatching_cons (t d : MesosResource)
    (ds rs : List MesosResource) :
    merge_removeMatching t (d :: ds) rs =
      if t.name = d.name then
        match pyListRemove rs d with
        | .ok resources2 => merge_removeMatching t ds resources2
        | .error e => .error e
      else merge_removeMatching t ds rs := rfl

theorem merge_resourcesAux_append (ds xs ys : List MesosResource) :
    ∀ rs, merge_resourcesAux ds (xs ++ ys) rs =
      match merge_resourcesAux ds xs rs with
      | .ok rs2 => merge_resourcesAux ds ys rs2
      | .error e => .error e := by
  induction xs with
  | nil =>
    intro rs
    rfl
  | cons x xs2 ih =>
    intro rs
    rw [List.cons_append, merge_resourcesAux_cons, merge_resourcesAux_cons]
    cases hx : merge_removeMatching x ds rs with
    | ok rs2 => exact ih (rs2 ++ [x])
    | error e => rfl

theorem merge_removeMatching_count_preserved (t : MesosResource)
    (ds : List MesosResource) :
    ∀ rs rs2 : List MesosResource, ∀ y : MesosResource, ¬(t.name = y.name) →
    merge_removeMatching t ds rs = .ok rs2 →
    rs2.count y = rs.count y := by
  induction ds with
  | nil =>
    intro rs rs2 y _ hok
    have h2 : Except.ok (ε := String) rs = .ok rs2 := hok
    rw [← Except.ok.inj h2]
  | cons d ds2 ih =>
    intro rs rs2 y hn hok
    rw [merge_removeMatching_cons] at hok
    by_cases hname : t.name = d.name
    · rw [if_pos hname] at hok
      cases hrem : pyListRemove rs d with
      | error e =>
        rw [hrem] at hok
        exact absurd hok (by simp)
      | ok l =>
        rw [hrem] at hok
        have hdl : d ∈ rs ∧ l = rs.erase d := by
          by_cases hm : d ∈ rs
          · rw [pyListRemove_of_mem rs d hm] at hrem
            exact ⟨hm, (Except.ok.inj hrem).symm⟩
          · rw [pyListRemove_of_not_mem rs d hm] at hrem
            exact absurd hrem (by simp)
        have hcount := ih l rs2 y hn hok
        rw [hcount, hdl.2, List.count_erase]
        have hdy : (d == y) = false := by
          rcases hb : d == y with _ | _
          · rfl
          · have hb2 : d.name = y.name := by rw [eq_of_beq hb]
            exact absurd (hname.trans hb2) hn
        rw [hdy]
        simp
    · rw [if_neg hname] at hok
      exact ih rs rs2 y hn hok

theorem merge_resourcesAux_count_preserved (ds : List MesosResource)
    (xs : List MesosResource) :
    ∀ rs rs2 : List MesosResource, ∀ y : MesosResource,
    (∀ x ∈ xs, ¬(x.name = y.name)) →
    merge_resourcesAux ds xs rs = .ok rs2 →
    rs2.count y = rs.count y := by
  induction xs with
  | nil =>
    intro rs rs2 y _ hok
    have h2 : Except.ok (ε := String) rs = .ok rs2 := hok
    rw [← Except.ok.inj h2]
  | cons x xs2 ih =>
    intro rs rs2 y hclean hok
    rw [merge_resourcesAux_cons] at hok
    cases hrm : merge_removeMatching x ds rs with
    | error e =>
      rw [hrm] at hok
      exact absurd hok (by simp)
    | ok rsm =>
      rw [hrm] at hok
      have h1 := merge_removeMatching_count_preserved x ds rs rsm y
        (hclean x (List.mem_cons_self x xs2)) hrm
      have h2 := ih (rsm ++ [x]) rs2 y
        (fun z hz => hclean z (List.mem_cons_of_mem x hz)) hok
      rw [h2, List.count_append, h1, List.count_singleton]
      have hxy : (x == y) = false := by
        rcases hb : x == y with _ | _
        · rfl
        · have hb2 : x.name = y.name := by rw [eq_of_beq hb]
          exact absurd hb2 (hclean x (List.mem_cons_self x xs2))
      rw [hxy]
      simp

theorem merge_removeMatching_count_sub (t : MesosResource)
    (ds : List MesosResource) :
    ∀ rs rs2 : List MesosResource, ∀ y : MesosResource, t.name = y.name →
    merge_removeMatching t ds rs = .ok rs2 →
    rs2.count y + (ds.filter (fun d => t.name == d.name)).count y =
      rs.count y := by
  induction ds with
  | nil =>
    intro rs rs2 y _ hok
    have h2 : Except.ok (ε := String) rs = .ok rs2 := hok
    rw [← Except.ok.inj h2]
    simp
  | cons d ds2 ih =>
    intro rs rs2 y hy hok
    rw [merge_removeMatching_cons] at hok
    by_cases hname : t.name = d.name
    · rw [if_pos hname] at hok
      cases hrem : pyListRemove rs d with
      | error e =>
        rw [hrem] at hok
        exact absurd hok (by simp)
      | ok l =>
        rw [hrem] at hok
        have hdl : d ∈ rs ∧ l = rs.erase d := by
          by_cases hm : d ∈ rs
          · rw [pyListRemove_of_mem rs d hm] at hrem
            exact ⟨hm, (Except.ok.inj hrem).symm⟩
          · rw [pyListRemove_of_not_mem rs d hm] at hrem
            exact absurd hrem (by simp)
        have hih := ih l rs2 y hy hok
        rw [hdl.2, List.count_erase] at hih
        rw [List.filter_cons, if_pos (by simp [hname]), List.count_cons]
        rcases hb : d == y with _ | _
        · rw [hb] at hih
          simp only [Bool.false_eq_true, if_false] at hih ⊢
          omega
        · rw [hb] at hih
          have hmem : 0 < rs.count y := by
            have hdy : d = y := eq_of_beq hb
            rw [← hdy]
            exact List.count_pos_iff.mpr hdl.1
          simp only [if_true] at hih ⊢
          omega
    · rw [if_neg hname] at hok
      have hih := ih rs rs2 y hy hok
      rw [List.filter_cons, if_neg (by simp [hname])]
      exact hih

theorem merge_removeMatching_error_of_missing (t : MesosResource)
    (ds : List MesosResource) :
    ∀ rs : List MesosResource, (∃ d ∈ ds, t.name = d.name) →
    (∀ d ∈ ds, t.name = d.name → d ∉ rs) →
    ∃ e, merge_removeMatching t ds rs = .error e := by
  induction ds with
  | nil =>
    intro rs hex _
    obtain ⟨d, hd, _⟩ := hex
    exact absurd hd (List.not_mem_nil d)
  | cons d ds2 ih =>
    intro rs hex hnone
    rw [merge_removeMatching_cons]
    by_cases hname : t.name = d.name
    · rw [if_pos hname,
        pyListRemove_of_not_mem rs d (hnone d (List.mem_cons_self d ds2) hname)]
      exact ⟨"ValueError: list.remove(x): x not in list", rfl⟩
    · rw [if_neg hname]
      apply ih rs
      · obtain ⟨d2, hd2, hd2n⟩ := hex
        rcases List.mem_cons.mp hd2 with h1 | h1
        · exact absurd (h1 ▸ hd2n) hname
        · exact ⟨d2, h1, hd2n⟩
      · exact fun d2 hd2 => hnone d2 (List.mem_cons_of_mem d hd2)

/-- C10: when some default bears name n, at least two overrides bear name
n, and no such override coincides with a default (their values differ),
merge_resources raises: the second override's removal pass fails to find
the already-removed default. -/
theorem merge_duplicate_override_raises (ds os : List MesosResource)
    (n : String)
    (hd : ∃ d ∈ ds, d.name = n)
    (h2 : 2 ≤ (os.filter (fun o => o.name == n)).length)
    (hsep : ∀ o ∈ os, o.name = n → o ∉ ds) :
    ∃ e, merge_resources ds os = .error e := by
  obtain ⟨pre, o1, mid, o2, rest, hosplit, hpo1, hpo2, hpre, hmid⟩ :=
    filter_two_split (fun o => o.name == n) os h2
  obtain ⟨d0, hd0mem, hd0name⟩ := hd
  have ho1n : o1.name = n := eq_of_beq hpo1
  have ho2n : o2.name = n := eq_of_beq hpo2
  have ho1mem : o1 ∈ os := by
    rw [hosplit]
    exact List.mem_append.mpr (Or.inr (List.mem_cons_self o1 _))
  unfold merge_resources
  rw [hosplit, merge_resourcesAux_append]
  cases h1 : merge_resourcesAux ds pre ds with
  | error e => exact ⟨e, rfl⟩
  | ok rs1 =>
    dsimp only
    rw [merge_resourcesAux_cons]
    cases hrm1 : merge_removeMatching o1 ds rs1 with
    | error e => exact ⟨e, rfl⟩
    | ok rs2 =>
      dsimp only
      rw [merge_resourcesAux_append]
      cases hmid2 : merge_resourcesAux ds mid (rs2 ++ [o1]) with
      | error e => exact ⟨e, rfl⟩
      | ok rs3 =>
        dsimp only
        rw [merge_resourcesAux_cons]
        have hnone3 : ∀ d ∈ ds, o2.name = d.name → d ∉ rs3 := by
          intro d hdmem hdname
          have hdn : d.name = n := by rw [← hdname, ho2n]
          have hc1 : rs1.count d = ds.count d := by
            apply merge_resourcesAux_count_preserved ds pre ds rs1 d ?_ h1
            intro z hz hzn
            have := hpre z hz
            rw [hzn, hdn] at this
            simp at this
          have hc2 := merge_removeMatching_count_sub o1 ds rs1 rs2 d
            (by rw [ho1n, hdn]) hrm1
          have hfc : (ds.filter (fun x => o1.name == x.name)).count d =
              ds.count d := by
            apply List.count_filter
            simp [ho1n, hdn]
          rw [hfc, hc1] at hc2
          have hrs2 : rs2.count d = 0 := by omega
          have ho1d : (o1 == d) = false := by
            rcases hb : o1 == d with _ | _
            · rfl
            · have : o1 = d := eq_of_beq hb
              exact absurd (this ▸ hdmem) (hsep o1 ho1mem ho1n)
          have happ : (rs2 ++ [o1]).count d = 0 := by
            rw [List.count_append, hrs2, List.count_singleton, ho1d]
            simp
          have hc3 : rs3.count d = 0 := by
            rw [merge_resourcesAux_count_preserved ds mid (rs2 ++ [o1]) rs3 d
              ?_ hmid2, happ]
            intro z hz hzn
            have := hmid z hz
            rw [hzn, hdn] at this
            simp at this
          exact List.count_eq_zero.mp hc3
        obtain ⟨e, he⟩ := merge_removeMatching_error_of_missing o2 ds rs3
          ⟨d0, hd0mem, by rw [ho2n, hd0name]⟩ hnone3
        rw [he]
        exact ⟨e, rfl⟩

/-- C10 witness: defaults [cpu 1/10] with overrides [cpu 4, cpu 2] raise a
ValueError inside merge_resources. -/
theorem merge_duplicate_override_raises_witness :
    ∃ e, merge_resources [MesosResource.scalar "cpu" (mkRat 1 10)]
      [MesosResource.scalar "cpu" 4, MesosResource.scalar "cpu" 2] =
      .error e := by
  apply merge_duplicate_override_raises _ _ "cpu"
  · exact ⟨MesosResource.scalar "cpu" (mkRat 1 10), by simp, rfl⟩
  · decide
  · decide

/-! ## Offer loop lemmas -/

theorem offerLoop_succ_eq (defaults : List MesosResource) (fuel : Nat)
    (avail : List Offer) (st : SchedulerState) :
    offerLoop defaults (fuel + 1) avail st =
      if avail.isEmpty then ⟨avail, st, [], none⟩
      else
        match (match st.current, st.pending with
          | some t, pend => some (t, pend)
          | none, t :: pend => some (t, pend)
          | none, [] => none) with
        | none => ⟨avail, st, [], none⟩
        | some (t, pend) =>
          match launch_current_task defaults st.counter st.tracking t avail with
          | .error e =>
            ⟨avail, ⟨pend, some t, st.tracking, st.counter⟩, [], some e⟩
          | .ok (none, c2, tr2) => ⟨avail, ⟨pend, some t, tr2, c2⟩, [], none⟩
          | .ok (some (offer, task_info), c2, tr2) =>
            let r := offerLoop defaults fuel (avail.erase offer)
              ⟨pend, none, tr2, c2⟩
            ⟨r.available, r.state, (offer.id, task_info) :: r.launches,
              r.error⟩ := rfl

theorem find_offerScan_first (fs : List AirflowMesosFilter) :
    ∀ offers : List Offer, ∀ o : Offer,
    find_offerScan fs offers = .ok (some o) →
    ∃ l1 l2, offers = l1 ++ o :: l2 ∧
      AirflowMesosOfferFilter.check fs o = .ok true ∧
      ∀ q ∈ l1, AirflowMesosOfferFilter.check fs q = .ok false := by
  intro offers
  induction offers with
  | nil =>
    intro o h
    exact absurd h (by simp [find_offerScan])
  | cons a rest ih =>
    intro o h
    rw [find_offerScan] at h
    cases hc : AirflowMesosOfferFilter.check fs a with
    | error e =>
      rw [hc] at h
      exact absurd h (by simp [bind, Except.bind])
    | ok b =>
      rw [hc] at h
      simp only [bind, Except.bind] at h
      cases b with
      | true =>
        simp only [if_true] at h
        have hao : a = o := by
          have h2 : some a = some o := Except.ok.inj h
          exact Option.some.inj h2
        subst hao
        exact ⟨[], rest, rfl, hc, by intro q hq; simp at hq⟩
      | false =>
        simp only [Bool.false_eq_true, if_false] at h
        obtain ⟨l1, l2, heq, hok, hall⟩ := ih o h
        refine ⟨a :: l1, l2, by rw [heq]; rfl, hok, ?_⟩
        intro q hq
        rcases List.mem_cons.mp hq with h1 | h1
        · rw [h1]; exact hc
        · exact hall q h1

theorem find_offerScan_mem (fs : List AirflowMesosFilter)
    (offers : List Offer) (o : Offer)
    (h : find_offerScan fs offers = .ok (some o)) : o ∈ offers := by
  obtain ⟨l1, l2, heq, _, _⟩ := find_offerScan_first fs offers o h
  rw [heq]
  exact List.mem_append.mpr (Or.inr (List.mem_cons_self o l2))

theorem launch_current_task_offer_mem (defaults : List MesosResource)
    (counter : Nat) (tracking : Tracking) (t : PendingTask)
    (offers : List Offer) (offer : Offer) (task_info : TaskInfo)
    (c2 : Nat) (tr2 : Tracking)
    (h : launch_current_task defaults counter tracking t offers =
      .ok (some (offer, task_info), c2, tr2)) : offer ∈ offers := by
  unfold launch_current_task at h
  cases hres : get_operator_mesos_resources defaults t with
  | error e =>
    rw [hres] at h
    exact absurd h (by simp [bind, Except.bind])
  | ok needed =>
    rw [hres] at h
    simp only [bind, Except.bind] at h
    cases hfind : find_offer offers needed with
    | error e =>
      rw [hfind] at h
      exact absurd h (by simp)
    | ok found =>
      rw [hfind] at h
      cases found with
      | none =>
        simp only [pure, Except.pure] at h
        have h2 := Except.ok.inj h
        exact Option.noConfusion (congrArg Prod.fst h2)
      | some o2 =>
        simp only [pure, Except.pure] at h
        have h2 := Except.ok.inj h
        have h3 : some (o2, build_task_info counter t.key t.command needed o2) =
            some (offer, task_info) := congrArg Prod.fst h2
        have ho2 : o2 = offer := congrArg Prod.fst (Option.some.inj h3)
        rw [← ho2]
        exact find_offerScan_mem _ offers o2 hfind

theorem offerLoop_consumes_one_per_launch (defaults : List MesosResource) :
    ∀ fuel : Nat, ∀ avail : List Offer, ∀ st : SchedulerState,
    (offerLoop defaults fuel avail st).error = none →
    (offerLoop defaults fuel avail st).available.length +
      (offerLoop defaults fuel avail st).launches.length = avail.length := by
  intro fuel
  induction fuel with
  | zero =>
    intro avail st _
    rfl
  | succ fuel ih =>
    intro avail st herr
    rw [offerLoop_succ_eq] at herr ⊢
    by_cases hemp : avail.isEmpty = true
    · rw [if_pos hemp]
      rfl
    · rw [if_neg hemp] at herr ⊢
      obtain ⟨pending, current, tracking, counter⟩ := st
      cases current with
      | some t =>
        dsimp only at herr ⊢
        cases hl : launch_current_task defaults counter tracking t avail with
        | error e =>
          rw [hl] at herr
          exact absurd herr (by simp)
        | ok res =>
          rw [hl] at herr
          obtain ⟨found, c2, tr2⟩ := res
          cases found with
          | none => rfl
          | some pr =>
            obtain ⟨offer, task_info⟩ := pr
            dsimp only at herr ⊢
            have hmem := launch_current_task_offer_mem defaults counter
              tracking t avail offer task_info c2 tr2 hl
            have hlen := List.length_erase_of_mem hmem
            have hpos : 1 ≤ avail.length := by
              have := List.length_pos_of_mem hmem
              omega
            have hih := ih (avail.erase offer) ⟨pending, none, tr2, c2⟩ herr
            simp only [List.length_cons]
            rw [hlen] at hih
            omega
      | none =>
        cases pending with
        | nil =>
          dsimp only at herr ⊢
          rfl
        | cons t pend =>
          dsimp only at herr ⊢
          cases hl : launch_current_task defaults counter tracking t avail with
          | error e =>
            rw [hl] at herr
            exact absurd herr (by simp)
          | ok res =>
            rw [hl] at herr
            obtain ⟨found, c2, tr2⟩ := res
            cases found with
            | none => rfl
            | some pr =>
              obtain ⟨offer, task_info⟩ := pr
              dsimp only at herr ⊢
              have hmem := launch_current_task_offer_mem defaults counter
                tracking t avail offer task_info c2 tr2 hl
              have hlen := List.length_erase_of_mem hmem
              have hpos : 1 ≤ avail.length := by
                have := List.length_pos_of_mem hmem
                omega
              have hih := ih (avail.erase offer) ⟨pend, none, tr2, c2⟩ herr
              simp only [List.length_cons]
              rw [hlen] at hih
              omega

theorem offerLoop_dequeues_head (defaults : List MesosResource) (fuel : Nat)
    (avail : List Offer) (t : PendingTask) (pend : List PendingTask)
    (tracking : Tracking) (counter : Nat) (hne : avail.isEmpty = false) :
    offerLoop defaults (fuel + 1) avail ⟨t :: pend, none, tracking, counter⟩ =
      offerLoop defaults (fuel + 1) avail ⟨pend, some t, tracking, counter⟩ := by
  rw [offerLoop_succ_eq, offerLoop_succ_eq, hne]
  rfl

theorem offerLoop_stops_on_miss (defaults : List MesosResource) (fuel : Nat)
    (avail : List Offer) (t : PendingTask) (pend : List PendingTask)
    (tracking : Tracking) (counter : Nat)
    (hne : avail.isEmpty = false)
    (hmiss : launch_current_task defaults counter tracking t avail =
      .ok (none, counter, tracking)) :
    offerLoop defaults (fuel + 1) avail ⟨pend, some t, tracking, counter⟩ =
      ⟨avail, ⟨pend, some t, tracking, counter⟩, [], none⟩ := by
  rw [offerLoop_succ_eq, hne]
  simp only [Bool.false_eq_true, if_false]
  rw [hmiss]

/-! ## Claim theorems: offer matching round -/

/-- C1: pending work is attempted in FIFO order — with no current item the
loop first dequeues the head of the pending queue and makes it current;
the pool is scanned in delivery order — find_offer returns the first
offer the composite filter accepts, every earlier offer having been
rejected; and when no offer in the pool fits the current item the loop
stops entirely, leaving the pool, the pending queue and the current item
untouched, with no launch performed. -/
theorem resourceOffers_fifo_scan_stop (defaults : List MesosResource)
    (fuel : Nat) (avail : List Offer) (t : PendingTask)
    (pend : List PendingTask) (tracking : Tracking) (counter : Nat)
    (hne : avail.isEmpty = false)
    (hmiss : launch_current_task defaults counter tracking t avail =
      .ok (none, counter, tracking)) :
    offerLoop defaults (fuel + 1) avail ⟨t :: pend, none, tracking, counter⟩ =
      offerLoop defaults (fuel + 1) avail ⟨pend, some t, tracking, counter⟩ ∧
    offerLoop defaults (fuel + 1) avail ⟨pend, some t, tracking, counter⟩ =
      ⟨avail, ⟨pend, some t, tracking, counter⟩, [], none⟩ ∧
    (∀ offers : List Offer, ∀ needed : List MesosResource, ∀ o : Offer,
      find_offer offers needed = .ok (some o) →
      ∃ l1 l2, offers = l1 ++ o :: l2 ∧
        AirflowMesosOfferFilter.check (needed.map MesosResource.to_filter) o =
          .ok true ∧
        ∀ q ∈ l1, AirflowMesosOfferFilter.check
          (needed.map MesosResource.to_filter) q = .ok false) :=
  ⟨offerLoop_dequeues_head defaults fuel avail t pend tracking counter hne,
   offerLoop_stops_on_miss defaults fuel avail t pend tracking counter hne hmiss,
   fun offers needed o h =>
     find_offerScan_first (needed.map MesosResource.to_filter) offers o h⟩

def sampleDefaults : List MesosResource := [.scalar "cpus" 1]

def sampleOfferLow : Offer :=
  ⟨2, "s2", "h2", [⟨"cpus", .SCALAR, mkRat 1 2, 0, 0, []⟩]⟩

def sampleOfferHigh : Offer :=
  ⟨1, "s1", "h1", [⟨"cpus", .SCALAR, 2, 0, 0, []⟩]⟩

def sampleTask : PendingTask := ⟨("d", "t", "e"), "cmd", none⟩

/-- C1 witness: with one queued task needing a full cpu and a pool holding
only a half-cpu offer, the loop stops with the task left current, the
pool untouched and nothing launched. -/
theorem resourceOffers_fifo_scan_stop_witness :
    offerLoop sampleDefaults 1 [sampleOfferLow]
      ⟨[], some sampleTask, [], 0⟩ =
      ⟨[sampleOfferLow], ⟨[], some sampleTask, [], 0⟩, [], none⟩ :=
  (resourceOffers_fifo_scan_stop sampleDefaults 0 [sampleOfferLow]
    sampleTask [] [] 0 rfl (by rfl)).2.1

/-- C2: when the matching loop finishes without an exception, each
launched work item has consumed exactly one offer of the round
(remaining pool size plus launch count equals the delivered batch size)
and exactly the remaining pool is released; when the loop is interrupted
by an exception, the exception is caught, logged and every offer of the
original batch is released; the launches performed before the
interruption stand in both cases. -/
theorem resourceOffers_offer_accounting (defaults : List MesosResource)
    (offers : List Offer) (st : SchedulerState) :
    ((offerLoop defaults offers.length offers st).error = none →
      (offerLoop defaults offers.length offers st).available.length +
        (offerLoop defaults offers.length offers st).launches.length =
        offers.length ∧
      (resourceOffers defaults offers st).released =
        (offerLoop defaults offers.length offers st).available.map Offer.id ∧
      (resourceOffers defaults offers st).errorLogged = none) ∧
    (∀ e, (offerLoop defaults offers.length offers st).error = some e →
      (resourceOffers defaults offers st).released = offers.map Offer.id ∧
      (resourceOffers defaults offers st).errorLogged = some e) ∧
    (resourceOffers defaults offers st).launched =
      (offerLoop defaults offers.length offers st).launches := by
  refine ⟨?_, ?_, ?_⟩
  · intro herr
    have hlen := offerLoop_consumes_one_per_launch defaults offers.length
      offers st herr
    refine ⟨hlen, ?_, ?_⟩
    · unfold resourceOffers
      cases hr : offerLoop defaults offers.length offers st with
      | mk available state launches error =>
        rw [hr] at herr
        dsimp only at herr
        subst herr
        rfl
    · unfold resourceOffers
      cases hr : offerLoop defaults offers.length offers st with
      | mk available state launches error =>
        rw [hr] at herr
        dsimp only at herr
        subst herr
        rfl
  · intro e herr
    constructor
    · unfold resourceOffers
      cases hr : offerLoop defaults offers.length offers st with
      | mk available state launches error =>
        rw [hr] at herr
        dsimp only at herr
        subst herr
        rfl
    · unfold resourceOffers
      cases hr : offerLoop defaults offers.length offers st with
      | mk available state launches error =>
        rw [hr] at herr
        dsimp only at herr
        subst herr
        rfl
  · unfold resourceOffers
    cases hr : offerLoop defaults offers.length offers st with
    | mk available state launches error =>
      cases error with
      | none => rfl
      | some e => rfl

/-- C2 witness: a round over two concrete offers launches the queued task
on the matching offer, leaves one offer in the pool, and releases exactly
that offer. -/
theorem resourceOffers_offer_accounting_witness :
    (offerLoop sampleDefaults 2 [sampleOfferLow, sampleOfferHigh]
        ⟨[sampleTask], none, [], 0⟩).available.length +
      (offerLoop sampleDefaults 2 [sampleOfferLow, sampleOfferHigh]
        ⟨[sampleTask], none, [], 0⟩).launches.length = 2 ∧
    (resourceOffers sampleDefaults [sampleOfferLow, sampleOfferHigh]
        ⟨[sampleTask], none, [], 0⟩).released =
      (offerLoop sampleDefaults 2 [sampleOfferLow, sampleOfferHigh]
        ⟨[sampleTask], none, [], 0⟩).available.map Offer.id ∧
    (resourceOffers sampleDefaults [sampleOfferLow, sampleOfferHigh]
        ⟨[sampleTask], none, [], 0⟩).errorLogged = none :=
  (resourceOffers_offer_accounting sampleDefaults
    [sampleOfferLow, sampleOfferHigh] ⟨[sampleTask], none, [], 0⟩).1 (by rfl)

end AirflowMesos
